import Mathlib

/-
Verification development for `covid19_inference/models.py`
(function `SIR_model_with_change_points`).

The Python function is embedded shallowly:
  * Python dicts (`priors_dic`, the change-point dicts) become association
    lists `List (String × PVal)` with first-match lookup and append-on-missing
    insertion, which is exactly how the source reads and mutates them
    (it only ever inserts keys that are absent).
  * Python values stored in those dicts are numbers (floats/ints, embedded
    as `ℚ`), `datetime` objects (embedded as a day number `ℤ`; the source
    only ever subtracts two of them and compares them), or `None`.
  * `raise RuntimeError(...)` / Python `TypeError` become an `Except BuildErr`
    result; `BuildErr.message` records the exact source message strings.
  * The PyMC model context becomes an explicit trace: the list of variable
    names registered by `pm.*` calls, in registration order.  The values of
    the latent (random) variables are inputs: a valuation `v : String → ℚ`
    assigns each declared latent variable its drawn value, mirroring that the
    assembled graph is a deterministic function of the latent draws.
    Hyperparameters of the prior distributions (means/sigmas handed to
    `pm.Lognormal` etc.) affect only the *distributions*, never the graph
    structure or the deterministic dataflow, so they are not tracked beyond
    the dict reads that the control flow depends on.
  * The helper functions `_smooth_step_function`, `_SIR_model` and
    `_delay_cases` are imported by `models.py` from
    `covid19_inference/modelling_help_functions.py`, a file of this
    repository that is not under `src/`.  They are passed to the embedding
    as function parameters, mirroring the import; theorems quantify over
    them wherever their behaviour is irrelevant to the claim, and a
    spec-modelled instance (`smooth_step_function`) is provided where a
    concrete transition profile is needed.
-/

set_option maxRecDepth 4000

namespace CovidModels

/-- A value stored in one of the configuration dictionaries: a number
(Python float/int, embedded as `ℚ`), a `datetime` (embedded as a day
number), or Python `None`. -/
inductive PVal where
  | num (q : ℚ)
  | date (d : ℤ)
  | none
deriving DecidableEq

/-- A Python dict as the source uses it: string keys, insertion order
preserved, keys unique (the source only inserts keys that are absent). -/
abbrev Dict := List (String × PVal)

/-- `k in d` for a Python dict. -/
def dmem : Dict → String → Bool
  | [], _ => false
  | (k', _) :: rest, k => k' == k || dmem rest k

/-- `d[k]` for a Python dict (first binding wins). -/
def dget : Dict → String → Option PVal
  | [], _ => Option.none
  | (k', v) :: rest, k => if k' == k then Option.some v else dget rest k

/-- `if k not in d: d[k] = v` — the only mutation the source performs. -/
def dsetDefault (d : Dict) (k : String) (v : PVal) : Dict :=
  if dmem d k then d else d ++ [(k, v)]

/-- `for k, v in defaults.items(): if k not in d: d[k] = v`
(source lines 55–57 and the inner part of 63–66). -/
def fillDefaults : Dict → Dict → Dict
  | d, [] => d
  | d, (k, v) :: rest => fillDefaults (dsetDefault d k v) rest

/-- `for k in d.keys(): if k not in allowed: raise ...` — returns the first
offending key in iteration order (source lines 52–54 and 60–62). -/
def firstUnknownKey : Dict → Dict → Option String
  | [], _ => Option.none
  | (k, _) :: rest, allowed =>
      if dmem allowed k then firstUnknownKey rest allowed else Option.some k

/-- `default_priors` of the source (lines 37–44); float literals are taken
at their decimal value. -/
def default_priors : Dict :=
  [("prior_beta_I_begin", PVal.num 100),
   ("prior_median_λ_0", PVal.num (2/5)),
   ("prior_sigma_λ_0", PVal.num (1/2)),
   ("prior_median_μ", PVal.num (1/8)),
   ("prior_sigma_μ", PVal.num (1/5)),
   ("prior_median_delay", PVal.num 8),
   ("prior_sigma_delay", PVal.num (1/5)),
   ("prior_beta_σ_obs", PVal.num 10)]

/-- `default_priors_change_points` of the source (lines 45–50); the first two
entries are read out of `default_priors`, as in the source. -/
def default_priors_change_points : Dict :=
  [("prior_median_λ", (dget default_priors "prior_median_λ_0").getD PVal.none),
   ("prior_sigma_λ", (dget default_priors "prior_sigma_λ_0").getD PVal.none),
   ("prior_sigma_date_begin_transient", PVal.num 3),
   ("prior_median_transient_len", PVal.num 3),
   ("prior_sigma_transient_len", PVal.num (3/10)),
   ("prior_mean_date_begin_transient", PVal.none)]

/-- The ways `SIR_model_with_change_points` can abort.  The first four are
`raise RuntimeError(msg)` sites of the source; `typeError` is the Python
`TypeError` that arithmetic/comparison on a `None` or mistyped dict entry
raises; `keyError` is a missing-key lookup (unreachable after defaulting). -/
inductive BuildErr where
  | unknownOption (name : String)
  | insufficientLeadTime
  | horizonTooShort
  | changePointOrdering
  | typeError
  | keyError (name : String)
deriving DecidableEq

/-- The message of each `RuntimeError` raise site, verbatim from the source
(including the typo in the lead-time message). -/
def BuildErr.message : BuildErr → String
  | .unknownOption n => "Prior with name " ++ n ++ " not known"
  | .insufficientLeadTime => "diff_data_sim is to small compared to the prior delay"
  | .horizonTooShort => "Simulation ends before the end of the data. Increase num_days_sim."
  | .changePointOrdering => "Dates of change points are not temporally ordered"
  | .typeError => "TypeError"
  | .keyError n => "KeyError: " ++ n

/-- Python `a > b` on dict values: defined on two numbers or two dates,
a `TypeError` otherwise (in particular when one side is `None`). -/
def pyGt : PVal → PVal → Except BuildErr Bool
  | PVal.num a, PVal.num b => Except.ok (decide (b < a))
  | PVal.date a, PVal.date b => Except.ok (decide (b < a))
  | _, _ => Except.error BuildErr.typeError

/-- `(x - date_begin_simulation).days` of source line 92: defined when `x`
is a `datetime`, a `TypeError` otherwise (in particular for `None`). -/
def pyDateSub : PVal → ℤ → Except BuildErr ℤ
  | PVal.date d, d0 => Except.ok (d - d0)
  | _, _ => Except.error BuildErr.typeError

/-- Source lines 109–118, the assembly of the time-dependent spreading rate,
pointwise in the day index `t`.  `lam0` is `λ_list[0]`, `lamRest` is
`λ_list[1:]`, and `smooth` stands for the imported `_smooth_step_function`
(treated pointwise: its last two arguments are `t_total` and the day `t`).
Note the source initialises `λ_step_before = λ_list[0]` *outside* the loop
and never reassigns it, and sums the increments without adding the baseline
(`sum` of an empty Python list is the scalar `0`, which broadcasts). -/
def build_lambda_t (smooth : ℚ → ℚ → ℚ → ℚ → ℤ → ℕ → ℚ)
    (lam0 : ℚ) (lamRest tbegins tlens : List ℚ) (numDays : ℤ) : ℕ → ℚ :=
  fun t =>
    (((tbegins.zip tlens).zip lamRest).map
      (fun p => smooth 0 1 p.1.1 (p.1.1 + p.1.2) numDays t * (p.2 - lam0))).sum

/-- The rate assembly as claim C1 and spec §4.2 word it (for comparison with
`build_lambda_t`): `increment_i = smooth(0,1,begin_i,begin_i+duration_i,T) *
(rate_{i+1} - rate_i)`, all increments summed and the baseline rate added. -/
def spec_lambda_t (smooth : ℚ → ℚ → ℚ → ℚ → ℤ → ℕ → ℚ)
    (lam0 : ℚ) (lamRest tbegins tlens : List ℚ) (numDays : ℤ) : ℕ → ℚ :=
  fun t =>
    lam0 +
    (((tbegins.zip tlens).zip ((lam0 :: lamRest).zip lamRest)).map
      (fun p => smooth 0 1 p.1.1 (p.1.1 + p.1.2) numDays t * (p.2.2 - p.2.1))).sum

/-- Modelled from the spec: `_smooth_step_function` lives in
`covid19_inference/modelling_help_functions.py`, which is not under `src/`.
Spec §4.1 requires a continuous monotone interpolation that equals
`λ_begin` before `t_begin` and `λ_end` after `t_end`; the source's logistic
profile is rendered as the piecewise-linear ramp with those boundary values
(the claims settled against it depend only on the saturated values outside
the transition window). -/
def smooth_step_function (lb le tb te : ℚ) (_tTotal : ℤ) (t : ℕ) : ℚ :=
  if (t : ℚ) ≤ tb then lb
  else if te ≤ (t : ℚ) then le
  else lb + (le - lb) * ((t : ℚ) - tb) / (te - tb)

/-- `for change_point in change_points_list: if k not in default: raise` —
outer loop over the change-point dicts, inner over their keys
(source lines 59–62); first offending key, in iteration order. -/
def firstUnknownCpKey : List Dict → Option String
  | [] => Option.none
  | cp :: rest =>
      match firstUnknownKey cp default_priors_change_points with
      | Option.some k => Option.some k
      | Option.none => firstUnknownCpKey rest

/-- Source line 90, `if date_before is not None and date_before >
date_begin_transient` — a short-circuit conjunction, so the (possibly
`TypeError`-raising) comparison only runs from the second change point on. -/
def ordCheck : Option PVal → PVal → Except BuildErr Bool
  | Option.none, _ => Except.ok false
  | Option.some db, dbt => pyGt db dbt

/-- Source lines 86–96, the `transient_begin` declaration loop: for each
(already defaulted) change-point dict, read the transition-center date,
compare it with the previous one (`date_before > date_begin_transient`
raises the ordering error; the comparison itself can `TypeError`), subtract
`date_begin_simulation`, and register `transient_begin_i`.  Returns the
loop's outcome together with the updated declaration trace (declarations
made before a raise stay made). -/
def transientLoop (d0 : ℤ) :
    List Dict → ℕ → Option PVal → List String → Except BuildErr Unit × List String
  | [], _, _, decls => (Except.ok (), decls)
  | cp :: rest, i, dateBefore, decls =>
    match dget cp "prior_mean_date_begin_transient" with
    | Option.none => (Except.error (BuildErr.keyError "prior_mean_date_begin_transient"), decls)
    | Option.some dbt =>
      match ordCheck dateBefore dbt with
      | Except.error e => (Except.error e, decls)
      | Except.ok true => (Except.error BuildErr.changePointOrdering, decls)
      | Except.ok false =>
        match pyDateSub dbt d0 with
        | Except.error e => (Except.error e, decls)
        | Except.ok _ =>
            transientLoop d0 rest (i + 1) (Option.some dbt)
              (decls ++ ["transient_begin_" ++ toString i])

/-- The transition-center dates of a change-point list, when every entry
carries the key as an actual date. -/
def cpDates : List Dict → Option (List ℤ)
  | [] => Option.some []
  | cp :: rest =>
      match dget cp "prior_mean_date_begin_transient" with
      | Option.some (PVal.date d) => (cpDates rest).map (fun ds => d :: ds)
      | _ => Option.none

/-- Non-decreasing relative to an optional previous value — the exact shape
of the source's running `date_before` check. -/
def monoFrom : Option ℤ → List ℤ → Bool
  | _, [] => true
  | Option.none, d :: rest => monoFrom (Option.some d) rest
  | Option.some b, d :: rest => decide (b ≤ d) && monoFrom (Option.some d) rest

/-- Non-decreasing by list position. -/
def datesMono (ds : List ℤ) : Bool := monoFrom Option.none ds

/-- The variable names a successful assembly registers, in registration
order, for `n` change points. -/
def canonicalDecls (n : ℕ) : List String :=
  ["I_begin", "λ_0"]
  ++ (List.range n).map (fun i => "λ_" ++ toString (i + 1))
  ++ (List.range n).map (fun i => "transient_begin_" ++ toString i)
  ++ (List.range n).map (fun i => "transient_len_" ++ toString i)
  ++ ["μ", "delay", "σ_obs", "obs", "λ_t", "new_cases"]

/-- The deterministic content of a successfully assembled model, as a
function of the latent draws: the time-varying rate, the SIR trajectories,
the delay-convolved inferred cases, and the parameters of the `StudentT`
observation node of source lines 146–151. -/
structure ModelOut where
  lambda_t : ℕ → ℚ
  S : ℕ → ℚ
  I : ℕ → ℚ
  new_I : ℕ → ℚ
  new_cases_inferred : ℕ → ℚ
  obs_nu : ℚ
  obs_mu : List ℚ
  obs_sigma_base : List ℚ
  obs_sigma_scale : ℚ
  obs_observed : List ℚ

/-- The observable outcome of one call of `SIR_model_with_change_points`:
the result (model or raised error), the final state of the caller's
`priors_dic` and change-point dicts (the source mutates them in place), and
the trace of registered variable names. -/
structure BuildResult where
  result : Except BuildErr ModelOut
  priorsFinal : Dict
  cpsFinal : List Dict
  declared : List String

/-- Source lines 73–155: everything inside `with pm.Model()`.  `cps2` is the
already-defaulted change-point list; `sir` and `delayc` stand for the
imported `_SIR_model` and `_delay_cases` (pointwise in the day index). -/
def modelPhase (smooth : ℚ → ℚ → ℚ → ℚ → ℤ → ℕ → ℚ)
    (sir : (ℕ → ℚ) → ℚ → ℚ → ℚ → ℚ → (ℕ → ℚ) × (ℕ → ℚ) × (ℕ → ℚ))
    (delayc : (ℕ → ℚ) → ℤ → ℤ → ℚ → ℤ → ℕ → ℚ)
    (v : String → ℚ) (new_cases_obs : List ℚ) (cps2 : List Dict)
    (d0 numDays diff : ℤ) : Except BuildErr ModelOut × List String :=
  let n := cps2.length
  let decls0 := ["I_begin", "λ_0"] ++ (List.range n).map (fun i => "λ_" ++ toString (i + 1))
  match transientLoop d0 cps2 0 Option.none decls0 with
  | (Except.error e, decls) => (Except.error e, decls)
  | (Except.ok _, decls1) =>
    let decls2 := decls1 ++ (List.range n).map (fun i => "transient_len_" ++ toString i)
    let lamRest := (List.range n).map (fun i => v ("λ_" ++ toString (i + 1)))
    let tbegins := (List.range n).map (fun i => v ("transient_begin_" ++ toString i))
    let tlens := (List.range n).map (fun i => v ("transient_len_" ++ toString i))
    let lam_t := build_lambda_t smooth (v "λ_0") lamRest tbegins tlens numDays
    let decls3 := decls2 ++ ["μ", "delay", "σ_obs"]
    let N : ℚ := 83000000
    let S_begin := N - v "I_begin"
    let sirOut := sir lam_t (v "μ") S_begin (v "I_begin") N
    let new_cases_inferred := delayc sirOut.2.2 numDays (numDays - diff) (v "delay") diff
    let numDaysData := new_cases_obs.length
    (Except.ok
      { lambda_t := lam_t
        S := sirOut.1
        I := sirOut.2.1
        new_I := sirOut.2.2
        new_cases_inferred := new_cases_inferred
        obs_nu := 4
        obs_mu := (List.range numDaysData).map new_cases_inferred
        obs_sigma_base := (List.range numDaysData).map new_cases_inferred
        obs_sigma_scale := v "σ_obs"
        obs_observed := new_cases_obs },
     decls3 ++ ["obs", "λ_t", "new_cases"])

/-- The whole of `SIR_model_with_change_points` (source lines 9–155):
key validation and defaulting of `priors_dic` (52–57) and of every
change-point dict (59–66), the lead-time check (68–69), the horizon check
(70–71), then the model phase.  The dict states returned are the caller's
dicts as the source's in-place mutation leaves them at exit, raise or not. -/
def SIR_model_with_change_points (smooth : ℚ → ℚ → ℚ → ℚ → ℤ → ℕ → ℚ)
    (sir : (ℕ → ℚ) → ℚ → ℚ → ℚ → ℚ → (ℕ → ℚ) × (ℕ → ℚ) × (ℕ → ℚ))
    (delayc : (ℕ → ℚ) → ℤ → ℤ → ℚ → ℤ → ℕ → ℚ)
    (v : String → ℚ) (new_cases_obs : List ℚ) (change_points_list : List Dict)
    (date_begin_simulation num_days_sim diff_data_sim : ℤ)
    (priors_dic : Dict) : BuildResult :=
  match firstUnknownKey priors_dic default_priors with
  | Option.some k =>
      ⟨Except.error (BuildErr.unknownOption k), priors_dic, change_points_list, []⟩
  | Option.none =>
    let priors2 := fillDefaults priors_dic default_priors
    match firstUnknownCpKey change_points_list with
    | Option.some k =>
        ⟨Except.error (BuildErr.unknownOption k), priors2, change_points_list, []⟩
    | Option.none =>
      let cps2 := change_points_list.map (fun cp => fillDefaults cp default_priors_change_points)
      match dget priors2 "prior_median_delay", dget priors2 "prior_sigma_delay" with
      | Option.some (PVal.num m), Option.some (PVal.num s) =>
        if (diff_data_sim : ℚ) < m + 3 * m * s then
          ⟨Except.error BuildErr.insufficientLeadTime, priors2, cps2, []⟩
        else if num_days_sim < (new_cases_obs.length : ℤ) + diff_data_sim then
          ⟨Except.error BuildErr.horizonTooShort, priors2, cps2, []⟩
        else
          let mp := modelPhase smooth sir delayc v new_cases_obs cps2
                      date_begin_simulation num_days_sim diff_data_sim
          ⟨mp.1, priors2, cps2, mp.2⟩
      | _, _ => ⟨Except.error BuildErr.typeError, priors2, cps2, []⟩

/-- The per-day observation-noise scale the source attaches (line 150):
`tt.abs_(new_cases_inferred + 1) ** 0.5 * σ_obs`. -/
noncomputable def obs_scale (x σ : ℝ) : ℝ := |x + 1| ^ ((1 : ℝ) / 2) * σ

/-- The per-day observation-noise scale as claim C3 words it:
`sqrt(expected_count + 1) * observation_noise_scale`. -/
noncomputable def obs_scale_claimed (x σ : ℝ) : ℝ := (x + 1) ^ ((1 : ℝ) / 2) * σ

/-- A trivial stand-in for the imported `_SIR_model` where its output is
irrelevant to a claim. -/
def sirZ : (ℕ → ℚ) → ℚ → ℚ → ℚ → ℚ → (ℕ → ℚ) × (ℕ → ℚ) × (ℕ → ℚ) :=
  fun _ _ _ _ _ => (fun _ => 0, fun _ => 0, fun _ => 0)

/-- A trivial stand-in for the imported `_delay_cases` where its output is
irrelevant to a claim. -/
def delayZ : (ℕ → ℚ) → ℤ → ℤ → ℚ → ℤ → ℕ → ℚ := fun _ _ _ _ _ _ => 0

/-- A `_delay_cases` stand-in that reports the constant inferred count `-2`
(the SIR recursion is unclamped, so negative expected counts are reachable;
spec §4.3). -/
def delayNeg : (ℕ → ℚ) → ℤ → ℤ → ℚ → ℤ → ℕ → ℚ := fun _ _ _ _ _ _ => -2

/-- A latent valuation drawing `1` for every latent variable. -/
def vOne : String → ℚ := fun _ => 1

/-- Every key of `priors_dic` is a recognized top-level option name. -/
def priorsKeysOK (priors : Dict) : Prop :=
  firstUnknownKey priors default_priors = Option.none

/-- Every key of every change-point dict is a recognized change-point
option name. -/
def cpsKeysOK (cps : List Dict) : Prop := firstUnknownCpKey cps = Option.none

instance (priors : Dict) : Decidable (priorsKeysOK priors) := by
  unfold priorsKeysOK; infer_instance

instance (cps : List Dict) : Decidable (cpsKeysOK cps) := by
  unfold cpsKeysOK; infer_instance

/-! ### Association-list (Python dict) lemmas -/

theorem dmem_append (d e : Dict) (k : String) :
    dmem (d ++ e) k = (dmem d k || dmem e k) := by
  induction d with
  | nil => simp [dmem]
  | cons p rest ih => cases p; simp [dmem, ih, Bool.or_assoc]

theorem dget_append_left (d e : Dict) (k : String) (h : dmem d k = true) :
    dget (d ++ e) k = dget d k := by
  induction d with
  | nil => simp [dmem] at h
  | cons p rest ih =>
    cases p with
    | mk k' v =>
      by_cases hk : k' = k
      · subst hk; simp [dget]
      · have h' : dmem rest k = true := by simpa [dmem, hk] using h
        simp [dget, hk, ih h']

theorem dget_append_right (d e : Dict) (k : String) (h : dmem d k = false) :
    dget (d ++ e) k = dget e k := by
  induction d with
  | nil => simp [dget]
  | cons p rest ih =>
    cases p with
    | mk k' v =>
      have hk : ¬ k' = k := by
        intro hkk; subst hkk; simp [dmem] at h
      have h' : dmem rest k = false := by
        by_cases hr : dmem rest k = true
        · exfalso; rw [show dmem ((k', v) :: rest) k = (k' == k || dmem rest k) from rfl] at h
          simp [hr] at h
        · simpa using hr
      simp [dget, hk, ih h']

theorem dmem_of_dget_some (d : Dict) (k : String) (w : PVal)
    (h : dget d k = Option.some w) : dmem d k = true := by
  induction d with
  | nil => simp [dget] at h
  | cons p rest ih =>
    cases p with
    | mk k' v =>
      by_cases hk : k' = k
      · simp [dmem, hk]
      · have h' : dget rest k = Option.some w := by simpa [dget, hk] using h
        simp [dmem, ih h']

theorem dget_isSome_of_mem (d : Dict) (k : String) (h : dmem d k = true) :
    ∃ w, dget d k = Option.some w := by
  induction d with
  | nil => simp [dmem] at h
  | cons p rest ih =>
    cases p with
    | mk k' v =>
      by_cases hk : k' = k
      · exact ⟨v, by simp [dget, hk]⟩
      · have h' : dmem rest k = true := by simpa [dmem, hk] using h
        obtain ⟨w, hw⟩ := ih h'
        exact ⟨w, by simp [dget, hk, hw]⟩

theorem fillDefaults_get_of_mem (ds : Dict) (d : Dict) (k : String)
    (h : dmem d k = true) : dget (fillDefaults d ds) k = dget d k := by
  induction ds generalizing d with
  | nil => rfl
  | cons p rest ih =>
    cases p with
    | mk k' v =>
      show dget (fillDefaults (dsetDefault d k' v) rest) k = dget d k
      unfold dsetDefault
      by_cases hm : dmem d k' = true
      · rw [if_pos hm]; exact ih d h
      · rw [if_neg hm]
        have hmem : dmem (d ++ [(k', v)]) k = true := by
          rw [dmem_append]; simp [h]
        rw [ih _ hmem]
        exact dget_append_left d [(k', v)] k h

theorem fillDefaults_mem_of_mem (ds : Dict) (d : Dict) (k : String)
    (h : dmem d k = true) : dmem (fillDefaults d ds) k = true := by
  induction ds generalizing d with
  | nil => exact h
  | cons p rest ih =>
    cases p with
    | mk k' v =>
      show dmem (fillDefaults (dsetDefault d k' v) rest) k = true
      unfold dsetDefault
      by_cases hm : dmem d k' = true
      · rw [if_pos hm]; exact ih d h
      · rw [if_neg hm]
        exact ih _ (by rw [dmem_append]; simp [h])

theorem fillDefaults_get_of_missing (ds : Dict) (d : Dict) (k : String) (w : PVal)
    (hd : dmem d k = false) (hw : dget ds k = Option.some w) :
    dget (fillDefaults d ds) k = Option.some w := by
  induction ds generalizing d with
  | nil => simp [dget] at hw
  | cons p rest ih =>
    cases p with
    | mk k' v =>
      by_cases hk : k' = k
      · subst hk
        have hv : v = w := by simpa [dget] using hw
        subst hv
        show dget (fillDefaults (dsetDefault d k' v) rest) k' = Option.some v
        unfold dsetDefault
        rw [if_neg (by simp [hd])]
        have hmem : dmem (d ++ [(k', v)]) k' = true := by
          rw [dmem_append]; simp [dmem]
        rw [fillDefaults_get_of_mem rest _ _ hmem]
        rw [dget_append_right d [(k', v)] k' hd]
        simp [dget]
      · have hw' : dget rest k = Option.some w := by simpa [dget, hk] using hw
        show dget (fillDefaults (dsetDefault d k' v) rest) k = Option.some w
        unfold dsetDefault
        by_cases hm : dmem d k' = true
        · rw [if_pos hm]; exact ih _ hd hw'
        · rw [if_neg hm]
          refine ih _ ?_ hw'
          rw [dmem_append]; simp [dmem, hd, hk]

theorem fillDefaults_mem_right (ds : Dict) (d : Dict) (k : String)
    (h : dmem ds k = true) : dmem (fillDefaults d ds) k = true := by
  by_cases hd : dmem d k = true
  · exact fillDefaults_mem_of_mem ds d k hd
  · obtain ⟨w, hw⟩ := dget_isSome_of_mem ds k h
    exact dmem_of_dget_some _ _ w
      (fillDefaults_get_of_missing ds d k w (by simpa using hd) hw)

/-! ### Transient-begin loop lemmas -/

theorem pyGt_err (a b : PVal) (e : BuildErr) (h : pyGt a b = Except.error e) :
    e = BuildErr.typeError := by
  cases a <;> cases b <;> simp [pyGt] at h <;> exact h.symm

theorem pyDateSub_err (a : PVal) (d0 : ℤ) (e : BuildErr)
    (h : pyDateSub a d0 = Except.error e) : e = BuildErr.typeError := by
  cases a <;> simp [pyDateSub] at h <;> exact h.symm

theorem cpDates_cons (cp : Dict) (rest : List Dict) (ds : List ℤ)
    (h : cpDates (cp :: rest) = Option.some ds) :
    ∃ d ds', dget cp "prior_mean_date_begin_transient" = Option.some (PVal.date d) ∧
      cpDates rest = Option.some ds' ∧ ds = d :: ds' := by
  rcases hget : dget cp "prior_mean_date_begin_transient" with _ | val
  · simp [cpDates, hget] at h
  · cases val with
    | num q => simp [cpDates, hget] at h
    | date d =>
      rcases hr : cpDates rest with _ | ds'
      · simp [cpDates, hget, hr] at h
      · refine ⟨d, ds', rfl, rfl, ?_⟩
        simp [cpDates, hget, hr] at h
        exact h.symm
    | none => simp [cpDates, hget] at h

theorem cpDates_fill (cps : List Dict) (ds : List ℤ)
    (h : cpDates cps = Option.some ds) :
    cpDates (cps.map (fun cp => fillDefaults cp default_priors_change_points))
      = Option.some ds := by
  induction cps generalizing ds with
  | nil => simpa using h
  | cons cp rest ih =>
    obtain ⟨d, ds', hget, hr, hds⟩ := cpDates_cons cp rest ds h
    subst hds
    have hfill : dget (fillDefaults cp default_priors_change_points)
        "prior_mean_date_begin_transient" = Option.some (PVal.date d) := by
      rw [fillDefaults_get_of_mem _ _ _ (dmem_of_dget_some _ _ _ hget)]
      exact hget
    simp [cpDates, hfill, ih ds' hr]

theorem transientLoop_ok (d0 : ℤ) (cps : List Dict) (ds : List ℤ) (i : ℕ)
    (db : Option ℤ) (decls : List String)
    (hd : cpDates cps = Option.some ds) (hm : monoFrom db ds = true) :
    transientLoop d0 cps i (db.map PVal.date) decls
      = (Except.ok (),
         decls ++ (List.range cps.length).map
           (fun j => "transient_begin_" ++ toString (i + j))) := by
  induction cps generalizing ds i db decls with
  | nil => simp [transientLoop]
  | cons cp rest ih =>
    obtain ⟨d, ds', hget, hr, hds⟩ := cpDates_cons cp rest ds hd
    subst hds
    have hstep : monoFrom (Option.some d) ds' = true := by
      cases db with
      | none => simpa [monoFrom] using hm
      | some b => exact (by simpa [monoFrom] using hm : b ≤ d ∧ _).2
    have hcmp : ordCheck (db.map PVal.date) (PVal.date d) = Except.ok false := by
      cases db with
      | none => rfl
      | some b =>
        have hle : b ≤ d := (by simpa [monoFrom] using hm : b ≤ d ∧ _).1
        simp [ordCheck, Option.map, pyGt]
        omega
    simp only [transientLoop, hget, hcmp, pyDateSub]
    rw [show (Option.some (PVal.date d)) = (Option.some d).map PVal.date from rfl]
    rw [ih ds' (i + 1) (Option.some d) _ hr hstep]
    rw [List.append_assoc]
    congr 1
    rw [List.length_cons, List.range_succ_eq_map, List.map_cons, List.map_map,
      List.singleton_append]
    refine congrArg (fun l => decls ++ l) (congrArg₂ List.cons rfl ?_)
    apply List.map_congr_left
    intro a _
    have harith : i + 1 + a = i + Nat.succ a := by omega
    simp [Function.comp, harith]

theorem ordCheck_err (db : Option PVal) (dbt : PVal) (e : BuildErr)
    (h : ordCheck db dbt = Except.error e) : e = BuildErr.typeError := by
  cases db with
  | none => simp [ordCheck] at h
  | some x => exact pyGt_err x dbt e h

theorem transientLoop_err_of_violation (d0 : ℤ) (cps : List Dict) (ds : List ℤ)
    (i : ℕ) (db : Option ℤ) (decls : List String)
    (hd : cpDates cps = Option.some ds) (hm : monoFrom db ds = false) :
    (transientLoop d0 cps i (db.map PVal.date) decls).1
      = Except.error BuildErr.changePointOrdering := by
  induction cps generalizing ds i db decls with
  | nil =>
    have hds : ds = [] := by
      have := hd
      simp [cpDates] at this
      exact this
    subst hds
    simp [monoFrom] at hm
  | cons cp rest ih =>
    obtain ⟨d, ds', hget, hr, hds⟩ := cpDates_cons cp rest ds hd
    subst hds
    cases db with
    | none =>
      have hm' : monoFrom (Option.some d) ds' = false := by simpa [monoFrom] using hm
      have hcmp : ordCheck ((Option.none : Option ℤ).map PVal.date) (PVal.date d)
          = Except.ok false := rfl
      simp only [transientLoop, hget, hcmp, pyDateSub]
      rw [show (Option.some (PVal.date d)) = (Option.some d).map PVal.date from rfl]
      exact ih ds' (i + 1) (Option.some d) _ hr hm'
    | some b =>
      by_cases hbd : b ≤ d
      · have hm' : monoFrom (Option.some d) ds' = false := by
          simpa [monoFrom, hbd] using hm
        have hcmp : ordCheck ((Option.some b).map PVal.date) (PVal.date d)
            = Except.ok false := by
          simp [ordCheck, Option.map, pyGt]
          omega
        simp only [transientLoop, hget, hcmp, pyDateSub]
        rw [show (Option.some (PVal.date d)) = (Option.some d).map PVal.date from rfl]
        exact ih ds' (i + 1) (Option.some d) _ hr hm'
      · have hcmp : ordCheck ((Option.some b).map PVal.date) (PVal.date d)
            = Except.ok true := by
          simp [ordCheck, Option.map, pyGt]
          omega
        simp only [transientLoop, hget, hcmp]

theorem transientLoop_err_classify (d0 : ℤ) (cps : List Dict) :
    ∀ (i : ℕ) (db : Option PVal) (decls : List String) (e : BuildErr),
    (transientLoop d0 cps i db decls).1 = Except.error e →
    e = BuildErr.changePointOrdering ∨ e = BuildErr.typeError ∨
      e = BuildErr.keyError "prior_mean_date_begin_transient" := by
  induction cps with
  | nil =>
    intro i db decls e h
    simp [transientLoop] at h
  | cons cp rest ih =>
    intro i db decls e h
    rcases hget : dget cp "prior_mean_date_begin_transient" with _ | dbt
    · simp only [transientLoop, hget] at h
      exact Or.inr (Or.inr (by simpa using h.symm))
    · rcases hord : ordCheck db dbt with e' | b
      · simp only [transientLoop, hget, hord] at h
        have he : e = e' := by simpa using h.symm
        exact Or.inr (Or.inl (he.trans (ordCheck_err db dbt e' hord)))
      · cases b with
        | true =>
          simp only [transientLoop, hget, hord] at h
          exact Or.inl (by simpa using h.symm)
        | false =>
          rcases hsub : pyDateSub dbt d0 with e'' | z
          · simp only [transientLoop, hget, hord, hsub] at h
            have he : e = e'' := by simpa using h.symm
            exact Or.inr (Or.inl (he.trans (pyDateSub_err dbt d0 e'' hsub)))
          · simp only [transientLoop, hget, hord, hsub] at h
            exact ih _ _ _ _ h

/-! ### Build-level lemmas -/

theorem modelPhase_err_classify (smooth : ℚ → ℚ → ℚ → ℚ → ℤ → ℕ → ℚ)
    (sir : (ℕ → ℚ) → ℚ → ℚ → ℚ → ℚ → (ℕ → ℚ) × (ℕ → ℚ) × (ℕ → ℚ))
    (delayc : (ℕ → ℚ) → ℤ → ℤ → ℚ → ℤ → ℕ → ℚ)
    (v : String → ℚ) (ncobs : List ℚ) (cps2 : List Dict) (d0 nd diff : ℤ)
    (e : BuildErr)
    (h : (modelPhase smooth sir delayc v ncobs cps2 d0 nd diff).1 = Except.error e) :
    e = BuildErr.changePointOrdering ∨ e = BuildErr.typeError ∨
      e = BuildErr.keyError "prior_mean_date_begin_transient" := by
  simp only [modelPhase] at h
  rcases htl : transientLoop d0 cps2 0 Option.none
      (["I_begin", "λ_0"] ++ (List.range cps2.length).map (fun i => "λ_" ++ toString (i + 1)))
    with ⟨res, dcl⟩
  rw [htl] at h
  cases res with
  | error e' =>
    have he : e' = e := by simpa using h
    exact he ▸ transientLoop_err_classify d0 cps2 _ _ _ e'
      (by rw [htl])
  | ok u =>
    simp at h

theorem build_eq_priorsErr (smooth : ℚ → ℚ → ℚ → ℚ → ℤ → ℕ → ℚ)
    (sir : (ℕ → ℚ) → ℚ → ℚ → ℚ → ℚ → (ℕ → ℚ) × (ℕ → ℚ) × (ℕ → ℚ))
    (delayc : (ℕ → ℚ) → ℤ → ℤ → ℚ → ℤ → ℕ → ℚ)
    (v : String → ℚ) (ncobs : List ℚ) (cps : List Dict) (d0 nd diff : ℤ)
    (priors : Dict) (k : String)
    (hp : firstUnknownKey priors default_priors = Option.some k) :
    SIR_model_with_change_points smooth sir delayc v ncobs cps d0 nd diff priors
      = ⟨Except.error (BuildErr.unknownOption k), priors, cps, []⟩ := by
  simp only [SIR_model_with_change_points, hp]

theorem build_eq_cpsErr (smooth : ℚ → ℚ → ℚ → ℚ → ℤ → ℕ → ℚ)
    (sir : (ℕ → ℚ) → ℚ → ℚ → ℚ → ℚ → (ℕ → ℚ) × (ℕ → ℚ) × (ℕ → ℚ))
    (delayc : (ℕ → ℚ) → ℤ → ℤ → ℚ → ℤ → ℕ → ℚ)
    (v : String → ℚ) (ncobs : List ℚ) (cps : List Dict) (d0 nd diff : ℤ)
    (priors : Dict) (k : String)
    (hp : firstUnknownKey priors default_priors = Option.none)
    (hc : firstUnknownCpKey cps = Option.some k) :
    SIR_model_with_change_points smooth sir delayc v ncobs cps d0 nd diff priors
      = ⟨Except.error (BuildErr.unknownOption k),
          fillDefaults priors default_priors, cps, []⟩ := by
  simp only [SIR_model_with_change_points, hp, hc]

theorem build_eq_checked (smooth : ℚ → ℚ → ℚ → ℚ → ℤ → ℕ → ℚ)
    (sir : (ℕ → ℚ) → ℚ → ℚ → ℚ → ℚ → (ℕ → ℚ) × (ℕ → ℚ) × (ℕ → ℚ))
    (delayc : (ℕ → ℚ) → ℤ → ℤ → ℚ → ℤ → ℕ → ℚ)
    (v : String → ℚ) (ncobs : List ℚ) (cps : List Dict) (d0 nd diff : ℤ)
    (priors : Dict) (m s : ℚ)
    (hp : firstUnknownKey priors default_priors = Option.none)
    (hc : firstUnknownCpKey cps = Option.none)
    (hm : dget (fillDefaults priors default_priors) "prior_median_delay"
        = Option.some (PVal.num m))
    (hs : dget (fillDefaults priors default_priors) "prior_sigma_delay"
        = Option.some (PVal.num s)) :
    SIR_model_with_change_points smooth sir delayc v ncobs cps d0 nd diff priors
      = (if (diff : ℚ) < m + 3 * m * s then
           ⟨Except.error BuildErr.insufficientLeadTime,
             fillDefaults priors default_priors,
             cps.map (fun cp => fillDefaults cp default_priors_change_points), []⟩
         else if nd < (ncobs.length : ℤ) + diff then
           ⟨Except.error BuildErr.horizonTooShort,
             fillDefaults priors default_priors,
             cps.map (fun cp => fillDefaults cp default_priors_change_points), []⟩
         else
           ⟨(modelPhase smooth sir delayc v ncobs
               (cps.map (fun cp => fillDefaults cp default_priors_change_points))
               d0 nd diff).1,
             fillDefaults priors default_priors,
             cps.map (fun cp => fillDefaults cp default_priors_change_points),
             (modelPhase smooth sir delayc v ncobs
               (cps.map (fun cp => fillDefaults cp default_priors_change_points))
               d0 nd diff).2⟩) := by
  simp only [SIR_model_with_change_points, hp, hc, hm, hs]

set_option maxHeartbeats 1600000 in
theorem build_finals (smooth : ℚ → ℚ → ℚ → ℚ → ℤ → ℕ → ℚ)
    (sir : (ℕ → ℚ) → ℚ → ℚ → ℚ → ℚ → (ℕ → ℚ) × (ℕ → ℚ) × (ℕ → ℚ))
    (delayc : (ℕ → ℚ) → ℤ → ℤ → ℚ → ℤ → ℕ → ℚ)
    (v : String → ℚ) (ncobs : List ℚ) (cps : List Dict) (d0 nd diff : ℤ)
    (priors : Dict)
    (hp : firstUnknownKey priors default_priors = Option.none)
    (hc : firstUnknownCpKey cps = Option.none) :
    (SIR_model_with_change_points smooth sir delayc v ncobs cps d0 nd diff
        priors).priorsFinal = fillDefaults priors default_priors ∧
    (SIR_model_with_change_points smooth sir delayc v ncobs cps d0 nd diff
        priors).cpsFinal
      = cps.map (fun cp => fillDefaults cp default_priors_change_points) := by
  refine ⟨?_, ?_⟩ <;>
    (simp only [SIR_model_with_change_points, hp, hc]
     split <;> (try rfl) <;> split <;> (try rfl) <;> split <;> rfl)

theorem modelPhase_ok_of_loop_ok (smooth : ℚ → ℚ → ℚ → ℚ → ℤ → ℕ → ℚ)
    (sir : (ℕ → ℚ) → ℚ → ℚ → ℚ → ℚ → (ℕ → ℚ) × (ℕ → ℚ) × (ℕ → ℚ))
    (delayc : (ℕ → ℚ) → ℤ → ℤ → ℚ → ℤ → ℕ → ℚ)
    (v : String → ℚ) (ncobs : List ℚ) (cps2 : List Dict) (d0 nd diff : ℤ)
    (decls1 : List String)
    (htl : transientLoop d0 cps2 0 Option.none
        (["I_begin", "λ_0"]
          ++ (List.range cps2.length).map (fun i => "λ_" ++ toString (i + 1)))
      = (Except.ok (), decls1)) :
    (∃ out, (modelPhase smooth sir delayc v ncobs cps2 d0 nd diff).1
        = Except.ok out) ∧
    (modelPhase smooth sir delayc v ncobs cps2 d0 nd diff).2
      = decls1 ++ (List.range cps2.length).map (fun i => "transient_len_" ++ toString i)
          ++ ["μ", "delay", "σ_obs"] ++ ["obs", "λ_t", "new_cases"] := by
  simp only [modelPhase, htl]
  constructor
  · exact ⟨_, rfl⟩
  · trivial

theorem modelPhase_ok_inv (smooth : ℚ → ℚ → ℚ → ℚ → ℤ → ℕ → ℚ)
    (sir : (ℕ → ℚ) → ℚ → ℚ → ℚ → ℚ → (ℕ → ℚ) × (ℕ → ℚ) × (ℕ → ℚ))
    (delayc : (ℕ → ℚ) → ℤ → ℤ → ℚ → ℤ → ℕ → ℚ)
    (v : String → ℚ) (ncobs : List ℚ) (cps2 : List Dict) (d0 nd diff : ℤ)
    (out : ModelOut)
    (h : (modelPhase smooth sir delayc v ncobs cps2 d0 nd diff).1 = Except.ok out) :
    out.obs_nu = 4 ∧
    out.obs_observed = ncobs ∧
    out.new_cases_inferred = delayc out.new_I nd (nd - diff) (v "delay") diff ∧
    out.obs_mu = (List.range ncobs.length).map out.new_cases_inferred ∧
    out.obs_sigma_base = (List.range ncobs.length).map out.new_cases_inferred ∧
    out.obs_sigma_scale = v "σ_obs" ∧
    out.new_I = (sir out.lambda_t (v "μ") (83000000 - v "I_begin") (v "I_begin")
        83000000).2.2 ∧
    out.lambda_t = build_lambda_t smooth (v "λ_0")
        ((List.range cps2.length).map (fun i => v ("λ_" ++ toString (i + 1))))
        ((List.range cps2.length).map (fun i => v ("transient_begin_" ++ toString i)))
        ((List.range cps2.length).map (fun i => v ("transient_len_" ++ toString i)))
        nd := by
  simp only [modelPhase] at h
  rcases htl : transientLoop d0 cps2 0 Option.none
      (["I_begin", "λ_0"]
        ++ (List.range cps2.length).map (fun i => "λ_" ++ toString (i + 1)))
    with ⟨res, dcl⟩
  rw [htl] at h
  cases res with
  | error e => simp at h
  | ok u =>
    simp only [Except.ok.injEq] at h
    subst h
    refine ⟨rfl, rfl, rfl, rfl, rfl, rfl, rfl, rfl⟩

theorem build_err_classify (smooth : ℚ → ℚ → ℚ → ℚ → ℤ → ℕ → ℚ)
    (sir : (ℕ → ℚ) → ℚ → ℚ → ℚ → ℚ → (ℕ → ℚ) × (ℕ → ℚ) × (ℕ → ℚ))
    (delayc : (ℕ → ℚ) → ℤ → ℤ → ℚ → ℤ → ℕ → ℚ)
    (v : String → ℚ) (ncobs : List ℚ) (cps : List Dict) (d0 nd diff : ℤ)
    (priors : Dict) (e : BuildErr)
    (hp : firstUnknownKey priors default_priors = Option.none)
    (hc : firstUnknownCpKey cps = Option.none)
    (h : (SIR_model_with_change_points smooth sir delayc v ncobs cps d0 nd diff
        priors).result = Except.error e) :
    e = BuildErr.insufficientLeadTime ∨ e = BuildErr.horizonTooShort ∨
    e = BuildErr.changePointOrdering ∨ e = BuildErr.typeError ∨
    e = BuildErr.keyError "prior_mean_date_begin_transient" := by
  simp only [SIR_model_with_change_points, hp, hc] at h
  split at h
  · split at h
    · exact Or.inl (by simpa using h.symm)
    · split at h
      · exact Or.inr (Or.inl (by simpa using h.symm))
      · have hmp : (modelPhase smooth sir delayc v ncobs
            (cps.map (fun cp => fillDefaults cp default_priors_change_points))
            d0 nd diff).1 = Except.error e := h
        rcases modelPhase_err_classify smooth sir delayc v ncobs _ d0 nd diff e hmp
          with h1 | h1 | h1
        · exact Or.inr (Or.inr (Or.inl h1))
        · exact Or.inr (Or.inr (Or.inr (Or.inl h1)))
        · exact Or.inr (Or.inr (Or.inr (Or.inr h1)))
  · exact Or.inr (Or.inr (Or.inr (Or.inl (by simpa using h.symm))))

theorem build_success (smooth : ℚ → ℚ → ℚ → ℚ → ℤ → ℕ → ℚ)
    (sir : (ℕ → ℚ) → ℚ → ℚ → ℚ → ℚ → (ℕ → ℚ) × (ℕ → ℚ) × (ℕ → ℚ))
    (delayc : (ℕ → ℚ) → ℤ → ℤ → ℚ → ℤ → ℕ → ℚ)
    (v : String → ℚ) (ncobs : List ℚ) (cps : List Dict) (d0 nd diff : ℤ)
    (priors : Dict) (m s : ℚ) (ds : List ℤ)
    (hp : firstUnknownKey priors default_priors = Option.none)
    (hc : firstUnknownCpKey cps = Option.none)
    (hm : dget (fillDefaults priors default_priors) "prior_median_delay"
        = Option.some (PVal.num m))
    (hs : dget (fillDefaults priors default_priors) "prior_sigma_delay"
        = Option.some (PVal.num s))
    (hlead : ¬ (diff : ℚ) < m + 3 * m * s)
    (hhor : ¬ nd < (ncobs.length : ℤ) + diff)
    (hd : cpDates cps = Option.some ds) (hmono : datesMono ds = true) :
    (∃ out, (SIR_model_with_change_points smooth sir delayc v ncobs cps d0 nd diff
        priors).result = Except.ok out) ∧
    (SIR_model_with_change_points smooth sir delayc v ncobs cps d0 nd diff
        priors).declared = canonicalDecls cps.length := by
  have hd2 := cpDates_fill cps ds hd
  have hloop := transientLoop_ok d0
      (cps.map (fun cp => fillDefaults cp default_priors_change_points)) ds 0
      (Option.none : Option ℤ)
      (["I_begin", "λ_0"]
        ++ (List.range (cps.map (fun cp =>
              fillDefaults cp default_priors_change_points)).length).map
            (fun i => "λ_" ++ toString (i + 1)))
      hd2 hmono
  rw [show ((Option.none : Option ℤ).map PVal.date) = (Option.none : Option PVal)
    from rfl] at hloop
  have hmp := modelPhase_ok_of_loop_ok smooth sir delayc v ncobs
      (cps.map (fun cp => fillDefaults cp default_priors_change_points))
      d0 nd diff _ hloop
  rw [build_eq_checked smooth sir delayc v ncobs cps d0 nd diff priors m s hp hc hm hs]
  rw [if_neg hlead, if_neg hhor]
  constructor
  · obtain ⟨out, hout⟩ := hmp.1
    exact ⟨out, hout⟩
  · show (modelPhase smooth sir delayc v ncobs
        (cps.map (fun cp => fillDefaults cp default_priors_change_points))
        d0 nd diff).2 = canonicalDecls cps.length
    rw [hmp.2]
    simp only [List.length_map, canonicalDecls, List.append_assoc, Nat.zero_add,
      List.cons_append, List.nil_append]

theorem modelPhase_eq_of_loop_err (smooth : ℚ → ℚ → ℚ → ℚ → ℤ → ℕ → ℚ)
    (sir : (ℕ → ℚ) → ℚ → ℚ → ℚ → ℚ → (ℕ → ℚ) × (ℕ → ℚ) × (ℕ → ℚ))
    (delayc : (ℕ → ℚ) → ℤ → ℤ → ℚ → ℤ → ℕ → ℚ)
    (v : String → ℚ) (ncobs : List ℚ) (cps2 : List Dict) (d0 nd diff : ℤ)
    (e : BuildErr) (dcl : List String)
    (htl : transientLoop d0 cps2 0 Option.none
        (["I_begin", "λ_0"]
          ++ (List.range cps2.length).map (fun i => "λ_" ++ toString (i + 1)))
      = (Except.error e, dcl)) :
    modelPhase smooth sir delayc v ncobs cps2 d0 nd diff = (Except.error e, dcl) := by
  simp only [modelPhase, htl]

theorem build_ok_inv (smooth : ℚ → ℚ → ℚ → ℚ → ℤ → ℕ → ℚ)
    (sir : (ℕ → ℚ) → ℚ → ℚ → ℚ → ℚ → (ℕ → ℚ) × (ℕ → ℚ) × (ℕ → ℚ))
    (delayc : (ℕ → ℚ) → ℤ → ℤ → ℚ → ℤ → ℕ → ℚ)
    (v : String → ℚ) (ncobs : List ℚ) (cps : List Dict) (d0 nd diff : ℤ)
    (priors : Dict) (out : ModelOut)
    (h : (SIR_model_with_change_points smooth sir delayc v ncobs cps d0 nd diff
        priors).result = Except.ok out) :
    (modelPhase smooth sir delayc v ncobs
        (cps.map (fun cp => fillDefaults cp default_priors_change_points))
        d0 nd diff).1 = Except.ok out := by
  simp only [SIR_model_with_change_points] at h
  split at h
  · simp at h
  · split at h
    · simp at h
    · split at h
      · split at h
        · simp at h
        · split at h
          · simp at h
          · exact h
      · simp at h

/-! ### Claim theorems -/

/-- C1: the claim states that the i-th rate increment equals
`SmoothTransition(0,1,begin_i,begin_i+duration_i,t_total) * (rate_{i+1} - rate_i)`,
so that the assembled rate equals `rate_i` on the plateau between change
points i−1 and i.  The source never reassigns `λ_step_before` inside the loop
(every increment is multiplied by `rate_{i+1} - rate_0`) and never adds the
baseline to the sum.  At rates λ_0 = 1, λ_1 = 3, λ_2 = 5, transition windows
[10,12] and [20,22], horizon 50, the code's rate at the plateau day t = 15 is
2, while the claim's telescoping construction yields 3 (= rate_1). -/
theorem claim_C1_increment_eval :
    build_lambda_t smooth_step_function 1 [3, 5] [10, 20] [2, 2] 50 15 = 2 ∧
    spec_lambda_t smooth_step_function 1 [3, 5] [10, 20] [2, 2] 50 15 = 3 ∧
    build_lambda_t smooth_step_function 1 [3, 5] [10, 20] [2, 2] 50 15
      ≠ spec_lambda_t smooth_step_function 1 [3, 5] [10, 20] [2, 2] 50 15 := by
  have h1 : build_lambda_t smooth_step_function 1 [3, 5] [10, 20] [2, 2] 50 15 = 2 := by
    norm_num [build_lambda_t, smooth_step_function]
  have h2 : spec_lambda_t smooth_step_function 1 [3, 5] [10, 20] [2, 2] 50 15 = 3 := by
    norm_num [spec_lambda_t, smooth_step_function]
  refine ⟨h1, h2, ?_⟩
  rw [h1, h2]
  norm_num

/-- C2: the claim states the assembled λ_t is the baseline plus one increment
per change point, and in particular is the constant λ_0 when the change-point
list is empty.  In the source `λ_t = sum(λ_t_list)` never adds the baseline;
with no change points the sum of the empty list is the scalar 0 —
for every transition helper, baseline value, horizon and day.  A full
assembly with no change points and baseline draw λ_0 = 1 carries the
constant-0 rate, not the constant-1 rate. -/
theorem claim_C2_empty_schedule_eval :
    (∀ (smooth : ℚ → ℚ → ℚ → ℚ → ℤ → ℕ → ℚ) (lam0 : ℚ) (T : ℤ) (t : ℕ),
       build_lambda_t smooth lam0 [] [] [] T t = 0) ∧
    (∃ out, (SIR_model_with_change_points smooth_step_function sirZ delayZ vOne [0]
        [] 0 20 13 []).result = Except.ok out ∧ ∀ t, out.lambda_t t = 0) ∧
    vOne "λ_0" = 1 ∧ (0 : ℚ) ≠ 1 := by
  refine ⟨fun _ _ _ _ => rfl, ?_, rfl, by norm_num⟩
  obtain ⟨out, hout⟩ := (modelPhase_ok_of_loop_ok smooth_step_function sirZ delayZ vOne
    [0] ([] : List Dict) 0 20 13 _ rfl).1
  have hinv := modelPhase_ok_inv smooth_step_function sirZ delayZ vOne [0]
    ([] : List Dict) 0 20 13 out hout
  refine ⟨out, ?_, ?_⟩
  · rw [build_eq_checked smooth_step_function sirZ delayZ vOne [0] [] 0 20 13 [] 8
      (1/5) rfl rfl rfl rfl]
    rw [if_neg (by norm_num), if_neg (by decide)]
    exact hout
  · intro t
    rw [hinv.2.2.2.2.2.2.2]
    rfl

/-- C3, counterexample: the claim words the per-day observation scale as
`sqrt(expected_count + 1) * σ_obs`; the source computes
`tt.abs_(expected_count + 1) ** 0.5 * σ_obs` (line 150), which differs as
soon as `expected_count < -1` (reachable, since the unclamped SIR recursion
and delay convolution can produce negative expected counts): at
expected_count = −2 and σ_obs = 1 the source's scale is 1 while the claimed
formula's argument is negative (its real square root is not defined; under
Mathlib's 0-for-negative convention it evaluates to 0 ≠ 1).  The final
conjunct exhibits an assembled model whose inferred series is the constant
−2. -/
theorem claim_C3_counterexample :
    obs_scale (-2) 1 = 1 ∧ obs_scale_claimed (-2) 1 = 0 ∧
    obs_scale (-2) 1 ≠ obs_scale_claimed (-2) 1 ∧
    (∃ out, (SIR_model_with_change_points smooth_step_function sirZ delayNeg vOne [0]
        [] 0 20 13 []).result = Except.ok out ∧ out.obs_sigma_base = [-2]) := by
  have h1 : obs_scale (-2) 1 = 1 := by
    rw [obs_scale, ← Real.sqrt_eq_rpow]
    norm_num
  have h2 : obs_scale_claimed (-2) 1 = 0 := by
    rw [obs_scale_claimed, ← Real.sqrt_eq_rpow]
    rw [show (-2 : ℝ) + 1 = -1 by norm_num]
    rw [Real.sqrt_eq_zero_of_nonpos (by norm_num)]
    ring
  refine ⟨h1, h2, ?_, ?_⟩
  · rw [h1, h2]
    norm_num
  · obtain ⟨out, hout⟩ := (modelPhase_ok_of_loop_ok smooth_step_function sirZ delayNeg
      vOne [0] ([] : List Dict) 0 20 13 _ rfl).1
    have hinv := modelPhase_ok_inv smooth_step_function sirZ delayNeg vOne [0]
      ([] : List Dict) 0 20 13 out hout
    refine ⟨out, ?_, ?_⟩
    · rw [build_eq_checked smooth_step_function sirZ delayNeg vOne [0] [] 0 20 13 [] 8
        (1/5) rfl rfl rfl rfl]
      rw [if_neg (by norm_num), if_neg (by decide)]
      exact hout
    · rw [hinv.2.2.2.2.1, hinv.2.2.1]
      rfl

/-- C3, amended: the observation node the assembler attaches is a Student-t
with 4 degrees of freedom, located at the first `len(new_cases_obs)` entries
of the delay-convolved inferred case sequence, compared against the observed
series, with per-day scale `sqrt(|expected_count + 1|) * σ_obs` — equal to
the claimed `sqrt(expected_count + 1) * σ_obs` whenever
`expected_count ≥ −1`. -/
theorem claim_C3_obs_likelihood (smooth : ℚ → ℚ → ℚ → ℚ → ℤ → ℕ → ℚ)
    (sir : (ℕ → ℚ) → ℚ → ℚ → ℚ → ℚ → (ℕ → ℚ) × (ℕ → ℚ) × (ℕ → ℚ))
    (delayc : (ℕ → ℚ) → ℤ → ℤ → ℚ → ℤ → ℕ → ℚ)
    (v : String → ℚ) (ncobs : List ℚ) (cps : List Dict) (d0 nd diff : ℤ)
    (priors : Dict) (out : ModelOut)
    (h : (SIR_model_with_change_points smooth sir delayc v ncobs cps d0 nd diff
        priors).result = Except.ok out) :
    out.obs_nu = 4 ∧
    out.obs_observed = ncobs ∧
    out.new_cases_inferred = delayc out.new_I nd (nd - diff) (v "delay") diff ∧
    out.obs_mu = (List.range ncobs.length).map out.new_cases_inferred ∧
    out.obs_sigma_base = (List.range ncobs.length).map out.new_cases_inferred ∧
    out.obs_sigma_scale = v "σ_obs" ∧
    (∀ x σ : ℝ, obs_scale x σ = Real.sqrt |x + 1| * σ) ∧
    (∀ x σ : ℝ, -1 ≤ x → obs_scale x σ = Real.sqrt (x + 1) * σ) := by
  have hmp := build_ok_inv smooth sir delayc v ncobs cps d0 nd diff priors out h
  have hinv := modelPhase_ok_inv smooth sir delayc v ncobs _ d0 nd diff out hmp
  refine ⟨hinv.1, hinv.2.1, hinv.2.2.1, hinv.2.2.2.1, hinv.2.2.2.2.1,
    hinv.2.2.2.2.2.1, ?_, ?_⟩
  · intro x σ
    rw [obs_scale, Real.sqrt_eq_rpow]
  · intro x σ hx
    rw [obs_scale, Real.sqrt_eq_rpow, abs_of_nonneg (by linarith)]

/-- C3, witness: the amended likelihood theorem applied to a concrete
successful assembly. -/
theorem claim_C3_obs_likelihood_witness :
    ∃ out, (SIR_model_with_change_points smooth_step_function sirZ delayNeg vOne [0]
        [] 0 20 13 []).result = Except.ok out ∧
      out.obs_nu = 4 ∧ out.obs_observed = [0] := by
  obtain ⟨out, hout⟩ := (modelPhase_ok_of_loop_ok smooth_step_function sirZ delayNeg
    vOne [0] ([] : List Dict) 0 20 13 _ rfl).1
  have hres : (SIR_model_with_change_points smooth_step_function sirZ delayNeg vOne [0]
      [] 0 20 13 []).result = Except.ok out := by
    rw [build_eq_checked smooth_step_function sirZ delayNeg vOne [0] [] 0 20 13 [] 8
      (1/5) rfl rfl rfl rfl]
    rw [if_neg (by norm_num), if_neg (by decide)]
    exact hout
  have h := claim_C3_obs_likelihood smooth_step_function sirZ delayNeg vOne [0] [] 0
    20 13 [] out hres
  exact ⟨out, hres, h.1, h.2.1⟩

/-- C4: a priors dict or change-point dict with a key outside the recognized
option names makes assembly raise the unknown-option error before any model
variable is declared (the declaration trace is empty); with only recognized
keys no unknown-option error is ever raised, and every missing recognized
key of both dicts is filled with its fixed default value. -/
theorem claim_C4_unknown_option (smooth : ℚ → ℚ → ℚ → ℚ → ℤ → ℕ → ℚ)
    (sir : (ℕ → ℚ) → ℚ → ℚ → ℚ → ℚ → (ℕ → ℚ) × (ℕ → ℚ) × (ℕ → ℚ))
    (delayc : (ℕ → ℚ) → ℤ → ℤ → ℚ → ℤ → ℕ → ℚ)
    (v : String → ℚ) (ncobs : List ℚ) (cps : List Dict) (d0 nd diff : ℤ)
    (priors : Dict) :
    ((∃ k, (SIR_model_with_change_points smooth sir delayc v ncobs cps d0 nd diff
          priors).result = Except.error (BuildErr.unknownOption k))
        ↔ ¬ (priorsKeysOK priors ∧ cpsKeysOK cps)) ∧
    (∀ k, (SIR_model_with_change_points smooth sir delayc v ncobs cps d0 nd diff
          priors).result = Except.error (BuildErr.unknownOption k) →
        (SIR_model_with_change_points smooth sir delayc v ncobs cps d0 nd diff
          priors).declared = []) ∧
    (priorsKeysOK priors → cpsKeysOK cps →
      (SIR_model_with_change_points smooth sir delayc v ncobs cps d0 nd diff
          priors).cpsFinal
        = cps.map (fun cp => fillDefaults cp default_priors_change_points) ∧
      (∀ k w, dget default_priors k = Option.some w → dmem priors k = false →
        dget (SIR_model_with_change_points smooth sir delayc v ncobs cps d0 nd diff
          priors).priorsFinal k = Option.some w) ∧
      (∀ cp, cp ∈ cps → ∀ k w,
        dget default_priors_change_points k = Option.some w → dmem cp k = false →
        dget (fillDefaults cp default_priors_change_points) k = Option.some w)) := by
  refine ⟨⟨?_, ?_⟩, ?_, ?_⟩
  · rintro ⟨k, hk⟩ ⟨hA, hB⟩
    rcases build_err_classify smooth sir delayc v ncobs cps d0 nd diff priors _ hA hB hk
      with h1 | h1 | h1 | h1 | h1 <;> simp at h1
  · intro hnot
    by_cases hA : priorsKeysOK priors
    · have hB : ¬ cpsKeysOK cps := fun hB => hnot ⟨hA, hB⟩
      rcases hk : firstUnknownCpKey cps with _ | k
      · exact absurd hk hB
      · exact ⟨k, by
          rw [build_eq_cpsErr smooth sir delayc v ncobs cps d0 nd diff priors k hA hk]⟩
    · rcases hk : firstUnknownKey priors default_priors with _ | k
      · exact absurd hk hA
      · exact ⟨k, by
          rw [build_eq_priorsErr smooth sir delayc v ncobs cps d0 nd diff priors k hk]⟩
  · intro k hk
    by_cases hA : priorsKeysOK priors
    · by_cases hB : cpsKeysOK cps
      · rcases build_err_classify smooth sir delayc v ncobs cps d0 nd diff priors _
          hA hB hk with h1 | h1 | h1 | h1 | h1 <;> simp at h1
      · rcases hc : firstUnknownCpKey cps with _ | k'
        · exact absurd hc hB
        · rw [build_eq_cpsErr smooth sir delayc v ncobs cps d0 nd diff priors k' hA hc]
    · rcases hp : firstUnknownKey priors default_priors with _ | k'
      · exact absurd hp hA
      · rw [build_eq_priorsErr smooth sir delayc v ncobs cps d0 nd diff priors k' hp]
  · intro hA hB
    have hfin := build_finals smooth sir delayc v ncobs cps d0 nd diff priors hA hB
    refine ⟨hfin.2, ?_, ?_⟩
    · intro k w hw hmem
      rw [hfin.1]
      exact fillDefaults_get_of_missing default_priors priors k w hmem hw
    · intro cp _ k w hw hmem
      exact fillDefaults_get_of_missing default_priors_change_points cp k w hmem hw

/-- C4, witness: the spec's example `{'not_a_real_prior': 1}` raises the
unknown-option error with an empty declaration trace. -/
theorem claim_C4_unknown_option_witness :
    ∃ k, (SIR_model_with_change_points smooth_step_function sirZ delayZ vOne [0] [] 0
        20 13 [("not_a_real_prior", PVal.num 1)]).result
        = Except.error (BuildErr.unknownOption k) ∧
      (SIR_model_with_change_points smooth_step_function sirZ delayZ vOne [0] [] 0
        20 13 [("not_a_real_prior", PVal.num 1)]).declared = [] := by
  have h := claim_C4_unknown_option smooth_step_function sirZ delayZ vOne [0] [] 0 20
    13 [("not_a_real_prior", PVal.num 1)]
  obtain ⟨k, hk⟩ := h.1.mpr (by decide)
  exact ⟨k, hk, h.2.1 k hk⟩

/-- C5: with all configuration keys recognized, assembly raises the
insufficient-lead-time error exactly when `diff_data_sim` is below the delay
prior's threshold `m + 3*m*s` (`m`, `s` the delay prior's median and sigma
parameters — the code's rendering of the spec's "mean plus three standard
deviations" for its log-normal delay prior), and when it does, the
declaration trace is empty: no latent variable has been declared. -/
theorem claim_C5_lead_time (smooth : ℚ → ℚ → ℚ → ℚ → ℤ → ℕ → ℚ)
    (sir : (ℕ → ℚ) → ℚ → ℚ → ℚ → ℚ → (ℕ → ℚ) × (ℕ → ℚ) × (ℕ → ℚ))
    (delayc : (ℕ → ℚ) → ℤ → ℤ → ℚ → ℤ → ℕ → ℚ)
    (v : String → ℚ) (ncobs : List ℚ) (cps : List Dict) (d0 nd diff : ℤ)
    (priors : Dict) (m s : ℚ)
    (hp : priorsKeysOK priors) (hc : cpsKeysOK cps)
    (hm : dget (fillDefaults priors default_priors) "prior_median_delay"
        = Option.some (PVal.num m))
    (hs : dget (fillDefaults priors default_priors) "prior_sigma_delay"
        = Option.some (PVal.num s)) :
    ((SIR_model_with_change_points smooth sir delayc v ncobs cps d0 nd diff
        priors).result = Except.error BuildErr.insufficientLeadTime
      ↔ (diff : ℚ) < m + 3 * m * s) ∧
    ((SIR_model_with_change_points smooth sir delayc v ncobs cps d0 nd diff
        priors).result = Except.error BuildErr.insufficientLeadTime →
      (SIR_model_with_change_points smooth sir delayc v ncobs cps d0 nd diff
        priors).declared = []) := by
  rw [build_eq_checked smooth sir delayc v ncobs cps d0 nd diff priors m s hp hc hm hs]
  by_cases hL : (diff : ℚ) < m + 3 * m * s
  · rw [if_pos hL]
    exact ⟨⟨fun _ => hL, fun _ => rfl⟩, fun _ => rfl⟩
  · rw [if_neg hL]
    by_cases hH : nd < (ncobs.length : ℤ) + diff
    · rw [if_pos hH]
      exact ⟨⟨fun h => by simp at h, fun h => absurd h hL⟩, fun h => by simp at h⟩
    · rw [if_neg hH]
      refine ⟨⟨fun h => ?_, fun h => absurd h hL⟩, fun h => ?_⟩
      · rcases modelPhase_err_classify smooth sir delayc v ncobs _ d0 nd diff _ h
          with h1 | h1 | h1 <;> simp at h1
      · rcases modelPhase_err_classify smooth sir delayc v ncobs _ d0 nd diff _ h
          with h1 | h1 | h1 <;> simp at h1

/-- C5, witness: `diff_data_sim = 0` with the default delay prior
(median 8, sigma 0.2) raises the insufficient-lead-time error with an empty
declaration trace. -/
theorem claim_C5_lead_time_witness :
    (SIR_model_with_change_points smooth_step_function sirZ delayZ vOne [0] [] 0 20 0
        []).result = Except.error BuildErr.insufficientLeadTime ∧
    (SIR_model_with_change_points smooth_step_function sirZ delayZ vOne [0] [] 0 20 0
        []).declared = [] := by
  have h := claim_C5_lead_time smooth_step_function sirZ delayZ vOne [0] [] 0 20 0 []
    8 (1/5) rfl rfl rfl rfl
  have hcond : (((0 : ℤ) : ℚ)) < 8 + 3 * 8 * (1/5) := by norm_num
  exact ⟨h.1.mpr hcond, h.2 (h.1.mpr hcond)⟩

/-- C6: with all configuration keys recognized and the lead-time check
passing, assembly raises the horizon-too-short error exactly when
`num_days_sim < len(new_cases_obs) + diff_data_sim`, and when it does the
declaration trace is empty: the check runs before any latent variable is
declared. -/
theorem claim_C6_horizon (smooth : ℚ → ℚ → ℚ → ℚ → ℤ → ℕ → ℚ)
    (sir : (ℕ → ℚ) → ℚ → ℚ → ℚ → ℚ → (ℕ → ℚ) × (ℕ → ℚ) × (ℕ → ℚ))
    (delayc : (ℕ → ℚ) → ℤ → ℤ → ℚ → ℤ → ℕ → ℚ)
    (v : String → ℚ) (ncobs : List ℚ) (cps : List Dict) (d0 nd diff : ℤ)
    (priors : Dict) (m s : ℚ)
    (hp : priorsKeysOK priors) (hc : cpsKeysOK cps)
    (hm : dget (fillDefaults priors default_priors) "prior_median_delay"
        = Option.some (PVal.num m))
    (hs : dget (fillDefaults priors default_priors) "prior_sigma_delay"
        = Option.some (PVal.num s))
    (hlead : ¬ (diff : ℚ) < m + 3 * m * s) :
    ((SIR_model_with_change_points smooth sir delayc v ncobs cps d0 nd diff
        priors).result = Except.error BuildErr.horizonTooShort
      ↔ nd < (ncobs.length : ℤ) + diff) ∧
    ((SIR_model_with_change_points smooth sir delayc v ncobs cps d0 nd diff
        priors).result = Except.error BuildErr.horizonTooShort →
      (SIR_model_with_change_points smooth sir delayc v ncobs cps d0 nd diff
        priors).declared = []) := by
  rw [build_eq_checked smooth sir delayc v ncobs cps d0 nd diff priors m s hp hc hm hs]
  rw [if_neg hlead]
  by_cases hH : nd < (ncobs.length : ℤ) + diff
  · rw [if_pos hH]
    exact ⟨⟨fun _ => hH, fun _ => rfl⟩, fun _ => rfl⟩
  · rw [if_neg hH]
    refine ⟨⟨fun h => ?_, fun h => absurd h hH⟩, fun h => ?_⟩
    · rcases modelPhase_err_classify smooth sir delayc v ncobs _ d0 nd diff _ h
        with h1 | h1 | h1 <;> simp at h1
    · rcases modelPhase_err_classify smooth sir delayc v ncobs _ d0 nd diff _ h
        with h1 | h1 | h1 <;> simp at h1

/-- C6, witness: one observed day, `diff_data_sim = 13`, `num_days_sim = 5`
(shorter than 1 + 13) raises the horizon-too-short error with an empty
declaration trace. -/
theorem claim_C6_horizon_witness :
    (SIR_model_with_change_points smooth_step_function sirZ delayZ vOne [0] [] 0 5 13
        []).result = Except.error BuildErr.horizonTooShort ∧
    (SIR_model_with_change_points smooth_step_function sirZ delayZ vOne [0] [] 0 5 13
        []).declared = [] := by
  have h := claim_C6_horizon smooth_step_function sirZ delayZ vOne [0] [] 0 5 13 []
    8 (1/5) rfl rfl rfl rfl (by norm_num)
  have hcond : (5 : ℤ) < (([(0 : ℚ)].length : ℕ) : ℤ) + 13 := by decide
  exact ⟨h.1.mpr hcond, h.2 (h.1.mpr hcond)⟩

/-- C7: under an otherwise valid configuration whose change points all carry
a date, assembly raises the ordering error exactly when some transition-center
date is strictly earlier than its predecessor's (nothing is reordered
silently); with non-decreasing (including equal) dates the check passes and
assembly succeeds. -/
theorem claim_C7_ordering (smooth : ℚ → ℚ → ℚ → ℚ → ℤ → ℕ → ℚ)
    (sir : (ℕ → ℚ) → ℚ → ℚ → ℚ → ℚ → (ℕ → ℚ) × (ℕ → ℚ) × (ℕ → ℚ))
    (delayc : (ℕ → ℚ) → ℤ → ℤ → ℚ → ℤ → ℕ → ℚ)
    (v : String → ℚ) (ncobs : List ℚ) (cps : List Dict) (d0 nd diff : ℤ)
    (priors : Dict) (m s : ℚ) (ds : List ℤ)
    (hp : priorsKeysOK priors) (hc : cpsKeysOK cps)
    (hm : dget (fillDefaults priors default_priors) "prior_median_delay"
        = Option.some (PVal.num m))
    (hs : dget (fillDefaults priors default_priors) "prior_sigma_delay"
        = Option.some (PVal.num s))
    (hlead : ¬ (diff : ℚ) < m + 3 * m * s)
    (hhor : ¬ nd < (ncobs.length : ℤ) + diff)
    (hd : cpDates cps = Option.some ds) :
    ((SIR_model_with_change_points smooth sir delayc v ncobs cps d0 nd diff
        priors).result = Except.error BuildErr.changePointOrdering
      ↔ datesMono ds = false) ∧
    (datesMono ds = true →
      ∃ out, (SIR_model_with_change_points smooth sir delayc v ncobs cps d0 nd diff
        priors).result = Except.ok out) := by
  have hsucc : datesMono ds = true →
      ∃ out, (SIR_model_with_change_points smooth sir delayc v ncobs cps d0 nd diff
        priors).result = Except.ok out := fun hmono =>
    (build_success smooth sir delayc v ncobs cps d0 nd diff priors m s ds hp hc hm hs
      hlead hhor hd hmono).1
  refine ⟨⟨?_, ?_⟩, hsucc⟩
  · intro h
    cases hb : datesMono ds with
    | false => rfl
    | true =>
      obtain ⟨out, hout⟩ := hsucc hb
      rw [hout] at h
      simp at h
  · intro hmono
    have hd2 := cpDates_fill cps ds hd
    rcases hpair : transientLoop d0
        (cps.map (fun cp => fillDefaults cp default_priors_change_points)) 0 Option.none
        (["I_begin", "λ_0"]
          ++ (List.range (cps.map (fun cp =>
                fillDefaults cp default_priors_change_points)).length).map
              (fun i => "λ_" ++ toString (i + 1)))
      with ⟨res, dcl⟩
    have hv := transientLoop_err_of_violation d0
      (cps.map (fun cp => fillDefaults cp default_priors_change_points)) ds 0
      (Option.none : Option ℤ)
      (["I_begin", "λ_0"]
        ++ (List.range (cps.map (fun cp =>
              fillDefaults cp default_priors_change_points)).length).map
            (fun i => "λ_" ++ toString (i + 1)))
      hd2 hmono
    rw [show ((Option.none : Option ℤ).map PVal.date) = (Option.none : Option PVal)
      from rfl] at hv
    rw [hpair] at hv
    have hres : res = Except.error BuildErr.changePointOrdering := hv
    subst hres
    have hmp := modelPhase_eq_of_loop_err smooth sir delayc v ncobs
      (cps.map (fun cp => fillDefaults cp default_priors_change_points)) d0 nd diff
      BuildErr.changePointOrdering dcl hpair
    rw [build_eq_checked smooth sir delayc v ncobs cps d0 nd diff priors m s hp hc hm
      hs]
    rw [if_neg hlead, if_neg hhor]
    show (modelPhase smooth sir delayc v ncobs
      (cps.map (fun cp => fillDefaults cp default_priors_change_points))
      d0 nd diff).1 = Except.error BuildErr.changePointOrdering
    rw [hmp]

/-- C7, witness: the spec's example — change-point dates day 20 then day 10,
out of order — raises the ordering error; the same configuration with the
dates swapped assembles successfully. -/
theorem claim_C7_ordering_witness :
    (SIR_model_with_change_points smooth_step_function sirZ delayZ vOne [0]
        [[("prior_mean_date_begin_transient", PVal.date 20)],
         [("prior_mean_date_begin_transient", PVal.date 10)]] 0 40 13 []).result
      = Except.error BuildErr.changePointOrdering ∧
    (∃ out, (SIR_model_with_change_points smooth_step_function sirZ delayZ vOne [0]
        [[("prior_mean_date_begin_transient", PVal.date 10)],
         [("prior_mean_date_begin_transient", PVal.date 20)]] 0 40 13 []).result
      = Except.ok out) := by
  constructor
  · have h := claim_C7_ordering smooth_step_function sirZ delayZ vOne [0]
      [[("prior_mean_date_begin_transient", PVal.date 20)],
       [("prior_mean_date_begin_transient", PVal.date 10)]] 0 40 13 [] 8 (1/5)
      [20, 10] rfl (by decide) rfl rfl (by norm_num) (by decide) (by decide)
    exact h.1.mpr (by decide)
  · have h := claim_C7_ordering smooth_step_function sirZ delayZ vOne [0]
      [[("prior_mean_date_begin_transient", PVal.date 10)],
       [("prior_mean_date_begin_transient", PVal.date 20)]] 0 40 13 [] 8 (1/5)
      [10, 20] rfl (by decide) rfl rfl (by norm_num) (by decide) (by decide)
    exact h.2 (by decide)

/-- C8: assembly is a pure function of its inputs, and for every valid
configuration the registered-variable trace is exactly the canonical list
determined by the number of change points: `I_begin`; `λ_0` and one `λ_i`
per change point; one `transient_begin_i` and one `transient_len_i` per
change point; `μ`; `delay`; `σ_obs`; `obs`; and the deterministic outputs
`λ_t` and `new_cases` — so two runs on identical inputs declare identical
names in identical order. -/
theorem claim_C8_structural_determinism (smooth : ℚ → ℚ → ℚ → ℚ → ℤ → ℕ → ℚ)
    (sir : (ℕ → ℚ) → ℚ → ℚ → ℚ → ℚ → (ℕ → ℚ) × (ℕ → ℚ) × (ℕ → ℚ))
    (delayc : (ℕ → ℚ) → ℤ → ℤ → ℚ → ℤ → ℕ → ℚ)
    (v : String → ℚ) (ncobs : List ℚ) (cps : List Dict) (d0 nd diff : ℤ)
    (priors : Dict) (m s : ℚ) (ds : List ℤ)
    (hp : priorsKeysOK priors) (hc : cpsKeysOK cps)
    (hm : dget (fillDefaults priors default_priors) "prior_median_delay"
        = Option.some (PVal.num m))
    (hs : dget (fillDefaults priors default_priors) "prior_sigma_delay"
        = Option.some (PVal.num s))
    (hlead : ¬ (diff : ℚ) < m + 3 * m * s)
    (hhor : ¬ nd < (ncobs.length : ℤ) + diff)
    (hd : cpDates cps = Option.some ds) (hmono : datesMono ds = true) :
    (∃ out, (SIR_model_with_change_points smooth sir delayc v ncobs cps d0 nd diff
        priors).result = Except.ok out) ∧
    (SIR_model_with_change_points smooth sir delayc v ncobs cps d0 nd diff
        priors).declared = canonicalDecls cps.length ∧
    SIR_model_with_change_points smooth sir delayc v ncobs cps d0 nd diff priors
      = SIR_model_with_change_points smooth sir delayc v ncobs cps d0 nd diff
        priors := by
  have h := build_success smooth sir delayc v ncobs cps d0 nd diff priors m s ds hp hc
    hm hs hlead hhor hd hmono
  exact ⟨h.1, h.2, rfl⟩

/-- C8, witness: a valid one-change-point configuration assembles and its
declaration trace is the canonical eleven-name list. -/
theorem claim_C8_structural_determinism_witness :
    (∃ out, (SIR_model_with_change_points smooth_step_function sirZ delayZ vOne [0]
        [[("prior_mean_date_begin_transient", PVal.date 10)]] 0 40 13 []).result
      = Except.ok out) ∧
    (SIR_model_with_change_points smooth_step_function sirZ delayZ vOne [0]
        [[("prior_mean_date_begin_transient", PVal.date 10)]] 0 40 13 []).declared
      = ["I_begin", "λ_0", "λ_1", "transient_begin_0", "transient_len_0",
         "μ", "delay", "σ_obs", "obs", "λ_t", "new_cases"] := by
  have h := claim_C8_structural_determinism smooth_step_function sirZ delayZ vOne [0]
    [[("prior_mean_date_begin_transient", PVal.date 10)]] 0 40 13 [] 8 (1/5) [10]
    rfl (by decide) rfl rfl (by norm_num) (by decide) (by decide) (by decide)
  exact ⟨h.1, h.2.1.trans (by decide)⟩

/-- C9: once the key checks pass, the construction entry point mutates its
caller's mappings in place — the caller's `priors_dic` ends up as its
defaulted fill and every change-point dict as its defaulted fill, with every
recognized key present — and the theorem places no hypothesis on the
outcome, so these insertions persist unchanged when assembly subsequently
fails one of the horizon validations (or any later check): no error path
restores the caller's mappings. -/
theorem claim_C9_mutation (smooth : ℚ → ℚ → ℚ → ℚ → ℤ → ℕ → ℚ)
    (sir : (ℕ → ℚ) → ℚ → ℚ → ℚ → ℚ → (ℕ → ℚ) × (ℕ → ℚ) × (ℕ → ℚ))
    (delayc : (ℕ → ℚ) → ℤ → ℤ → ℚ → ℤ → ℕ → ℚ)
    (v : String → ℚ) (ncobs : List ℚ) (cps : List Dict) (d0 nd diff : ℤ)
    (priors : Dict)
    (hp : priorsKeysOK priors) (hc : cpsKeysOK cps) :
    (SIR_model_with_change_points smooth sir delayc v ncobs cps d0 nd diff
        priors).priorsFinal = fillDefaults priors default_priors ∧
    (SIR_model_with_change_points smooth sir delayc v ncobs cps d0 nd diff
        priors).cpsFinal
      = cps.map (fun cp => fillDefaults cp default_priors_change_points) ∧
    (∀ k, dmem default_priors k = true →
      dmem (SIR_model_with_change_points smooth sir delayc v ncobs cps d0 nd diff
        priors).priorsFinal k = true) ∧
    (∀ cpF, cpF ∈ (SIR_model_with_change_points smooth sir delayc v ncobs cps d0 nd
        diff priors).cpsFinal →
      ∀ k, dmem default_priors_change_points k = true → dmem cpF k = true) := by
  have hfin := build_finals smooth sir delayc v ncobs cps d0 nd diff priors hp hc
  refine ⟨hfin.1, hfin.2, ?_, ?_⟩
  · intro k hk
    rw [hfin.1]
    exact fillDefaults_mem_right default_priors priors k hk
  · intro cpF hmem k hk
    rw [hfin.2] at hmem
    obtain ⟨cp, _, hcp⟩ := List.mem_map.mp hmem
    subst hcp
    exact fillDefaults_mem_right default_priors_change_points cp k hk

/-- C9, witness: an assembly that fails the lead-time validation
(`diff_data_sim = 0`) still leaves the caller's priors dict filled: the
`prior_median_delay` default has been inserted into a dict that did not
contain it. -/
theorem claim_C9_mutation_witness :
    (SIR_model_with_change_points smooth_step_function sirZ delayZ vOne [0] [] 0 20 0
        [("prior_beta_I_begin", PVal.num 7)]).result
      = Except.error BuildErr.insufficientLeadTime ∧
    dget (SIR_model_with_change_points smooth_step_function sirZ delayZ vOne [0] [] 0
        20 0 [("prior_beta_I_begin", PVal.num 7)]).priorsFinal "prior_median_delay"
      = Option.some (PVal.num 8) ∧
    dmem [("prior_beta_I_begin", PVal.num 7)] "prior_median_delay" = false := by
  have h := claim_C9_mutation smooth_step_function sirZ delayZ vOne [0] [] 0 20 0
    [("prior_beta_I_begin", PVal.num 7)] rfl rfl
  refine ⟨?_, ?_, by decide⟩
  · rw [build_eq_checked smooth_step_function sirZ delayZ vOne [0] [] 0 20 0
      [("prior_beta_I_begin", PVal.num 7)] 8 (1/5) rfl rfl rfl rfl]
    rw [if_pos (by norm_num)]
  · rw [h.1]
    rfl

/-- C10: a change-point dict that omits the required
`prior_mean_date_begin_transient` key passes the configuration-validation
phase — the key is silently defaulted to `None` — and assembly fails only
later, with the `TypeError` from the date arithmetic
`(None - date_begin_simulation).days`, after latent variables (`I_begin`,
the `λ_i`) have already begun to be declared. -/
theorem claim_C10_missing_date (smooth : ℚ → ℚ → ℚ → ℚ → ℤ → ℕ → ℚ)
    (sir : (ℕ → ℚ) → ℚ → ℚ → ℚ → ℚ → (ℕ → ℚ) × (ℕ → ℚ) × (ℕ → ℚ))
    (delayc : (ℕ → ℚ) → ℤ → ℤ → ℚ → ℤ → ℕ → ℚ)
    (v : String → ℚ) (ncobs : List ℚ) (cp0 : Dict) (cps : List Dict)
    (d0 nd diff : ℤ) (priors : Dict) (m s : ℚ)
    (hp : priorsKeysOK priors) (hc : cpsKeysOK (cp0 :: cps))
    (hm : dget (fillDefaults priors default_priors) "prior_median_delay"
        = Option.some (PVal.num m))
    (hs : dget (fillDefaults priors default_priors) "prior_sigma_delay"
        = Option.some (PVal.num s))
    (hlead : ¬ (diff : ℚ) < m + 3 * m * s)
    (hhor : ¬ nd < (ncobs.length : ℤ) + diff)
    (hmiss : dmem cp0 "prior_mean_date_begin_transient" = false) :
    (SIR_model_with_change_points smooth sir delayc v ncobs (cp0 :: cps) d0 nd diff
        priors).result = Except.error BuildErr.typeError ∧
    dget ((SIR_model_with_change_points smooth sir delayc v ncobs (cp0 :: cps) d0 nd
        diff priors).cpsFinal.headD []) "prior_mean_date_begin_transient"
      = Option.some PVal.none ∧
    "I_begin" ∈ (SIR_model_with_change_points smooth sir delayc v ncobs (cp0 :: cps)
        d0 nd diff priors).declared := by
  have hfill : dget (fillDefaults cp0 default_priors_change_points)
      "prior_mean_date_begin_transient" = Option.some PVal.none :=
    fillDefaults_get_of_missing default_priors_change_points cp0 _ PVal.none hmiss rfl
  have htl : transientLoop d0
      ((cp0 :: cps).map (fun cp => fillDefaults cp default_priors_change_points)) 0
      Option.none
      (["I_begin", "λ_0"]
        ++ (List.range ((cp0 :: cps).map (fun cp =>
              fillDefaults cp default_priors_change_points)).length).map
            (fun i => "λ_" ++ toString (i + 1)))
    = (Except.error BuildErr.typeError,
       ["I_begin", "λ_0"]
        ++ (List.range ((cp0 :: cps).map (fun cp =>
              fillDefaults cp default_priors_change_points)).length).map
            (fun i => "λ_" ++ toString (i + 1))) := by
    show transientLoop d0
      (fillDefaults cp0 default_priors_change_points
        :: cps.map (fun cp => fillDefaults cp default_priors_change_points)) 0
      Option.none _ = _
    simp only [transientLoop, hfill, ordCheck, pyDateSub]
  have hmp := modelPhase_eq_of_loop_err smooth sir delayc v ncobs
    ((cp0 :: cps).map (fun cp => fillDefaults cp default_priors_change_points))
    d0 nd diff BuildErr.typeError _ htl
  rw [build_eq_checked smooth sir delayc v ncobs (cp0 :: cps) d0 nd diff priors m s
    hp hc hm hs]
  rw [if_neg hlead, if_neg hhor]
  refine ⟨?_, ?_, ?_⟩
  · show (modelPhase smooth sir delayc v ncobs
      ((cp0 :: cps).map (fun cp => fillDefaults cp default_priors_change_points))
      d0 nd diff).1 = Except.error BuildErr.typeError
    rw [hmp]
  · exact hfill
  · show "I_begin" ∈ (modelPhase smooth sir delayc v ncobs
      ((cp0 :: cps).map (fun cp => fillDefaults cp default_priors_change_points))
      d0 nd diff).2
    rw [hmp]
    simp

/-- C10, witness: the change-point list `[{}]` (one change point, no keys at
all) passes validation, its defaulted date is `None`, and assembly ends in
the date-arithmetic `TypeError` with `I_begin` already declared. -/
theorem claim_C10_missing_date_witness :
    (SIR_model_with_change_points smooth_step_function sirZ delayZ vOne [0] [[]] 0 20
        13 []).result = Except.error BuildErr.typeError ∧
    dget ((SIR_model_with_change_points smooth_step_function sirZ delayZ vOne [0]
        [[]] 0 20 13 []).cpsFinal.headD []) "prior_mean_date_begin_transient"
      = Option.some PVal.none ∧
    "I_begin" ∈ (SIR_model_with_change_points smooth_step_function sirZ delayZ vOne
        [0] [[]] 0 20 13 []).declared :=
  claim_C10_missing_date smooth_step_function sirZ delayZ vOne [0] [] [] 0 20 13 []
    8 (1/5) rfl rfl rfl rfl (by norm_num) (by decide) rfl

end CovidModels
